import Mathlib

/-!
Verification of the rbc external-function bridge.

The repository's visible source is `rbc/externals/libdevice.py` (bulk
registration of the libdevice function table) and
`rbc/tests/test_omnisci_treelite.py` (end-to-end use of the ad hoc
declaration API, call lowering and deferred linking).  The core
components — SignatureCatalog, TypeBridge, CallLowering, ModuleLinker
and DeclareAPI — are not among the provided source files; they are
modelled here from the specification's words, as marked on each
definition.  The bulk-registration loop and the argument-type-string
construction are embedded directly from `libdevice.py`.
-/

namespace RBC

/-- Modelled from the spec: the closed set of primitive type descriptors,
`{int8,int16,int32,int64,float32,float64,bool,void}` (spec section 3). -/
inductive Prim where
  | int8 | int16 | int32 | int64 | float32 | float64 | bool | void
deriving DecidableEq, Repr

/-- Modelled from the spec: a parameter's passing mode, `value` or `pointer`
(spec section 3). -/
inductive Mode where
  | value | pointer
deriving DecidableEq, Repr

/-- Modelled from the spec: a parameter is a primitive type descriptor
together with a passing mode (spec section 3). -/
structure Parameter where
  ty : Prim
  mode : Mode
deriving DecidableEq, Repr

/-- Modelled from the spec: a Signature is a name, a return type and an
ordered parameter list (spec section 3). -/
structure Signature where
  name : String
  return_type : Prim
  parameters : List Parameter
deriving DecidableEq, Repr

/-- Canonical textual name of each primitive, used by the grammar
`TYPE ::= PRIMITIVE | PRIMITIVE '*'` of spec section 4.5. -/
def canonName : Prim → List Char
  | .int8 => ['i', 'n', 't', '8']
  | .int16 => ['i', 'n', 't', '1', '6']
  | .int32 => ['i', 'n', 't', '3', '2']
  | .int64 => ['i', 'n', 't', '6', '4']
  | .float32 => ['f', 'l', 'o', 'a', 't', '3', '2']
  | .float64 => ['f', 'l', 'o', 'a', 't', '6', '4']
  | .bool => ['b', 'o', 'o', 'l']
  | .void => ['v', 'o', 'i', 'd']

/-- Modelled from the spec: recognition of a primitive type name.  The
alias `float` for `float32` is forced by concrete scenario 2 of spec
section 8, whose input string spells the return and pointer types
`float`. -/
def parsePrim (s : List Char) : Option Prim :=
  if s = canonName .int8 then some .int8
  else if s = canonName .int16 then some .int16
  else if s = canonName .int32 then some .int32
  else if s = canonName .int64 then some .int64
  else if s = canonName .float32 then some .float32
  else if s = canonName .float64 then some .float64
  else if s = canonName .bool then some .bool
  else if s = canonName .void then some .void
  else if s = ['f', 'l', 'o', 'a', 't'] then some .float32
  else none

/-- Characters permitted in a declared function name. -/
def isIdentChar (c : Char) : Bool :=
  c.isAlphanum || c = '_'

/-- Split a character list at the first occurrence of `c`, returning the
part before and the part after, or `none` when `c` does not occur. -/
def splitFirst (c : Char) : List Char → Option (List Char × List Char)
  | [] => none
  | a :: rest =>
    if a = c then some ([], rest)
    else
      match splitFirst c rest with
      | none => none
      | some (pre, post) => some (a :: pre, post)

/-- Split a character list at every comma. -/
def splitCommas : List Char → List (List Char)
  | [] => [[]]
  | a :: rest =>
    if a = ',' then [] :: splitCommas rest
    else
      match splitCommas rest with
      | [] => [[a]]
      | t :: ts => (a :: t) :: ts

/-- Remove leading and trailing spaces. -/
def trimChars (s : List Char) : List Char :=
  ((s.dropWhile fun c => c = ' ').reverse.dropWhile fun c => c = ' ').reverse

/-- Modelled from the spec: parse one TYPE token of the grammar
`TYPE ::= PRIMITIVE | PRIMITIVE '*'`; a trailing `*` marks pointer
mode, its absence marks value mode (spec section 4.5). -/
def parseTypeTok (s : List Char) : Option Parameter :=
  match s.getLast? with
  | some '*' => (parsePrim s.dropLast).map fun p => ⟨p, .pointer⟩
  | _ => (parsePrim s).map fun p => ⟨p, .value⟩

/-- Parse a list of comma-separated TYPE tokens, each trimmed of
surrounding spaces. -/
def parseTypeList : List (List Char) → Option (List Parameter)
  | [] => some []
  | t :: ts =>
    match parseTypeTok (trimChars t), parseTypeList ts with
    | some p, some ps => some (p :: ps)
    | _, _ => none

/-- Modelled from the spec: parse the text between the parentheses,
`[TYPE (',' TYPE)*]` — either empty or a comma-separated TYPE list
(spec section 4.5). -/
def parseArgList (s : List Char) : Option (List Parameter) :=
  if trimChars s = [] then some []
  else parseTypeList (splitCommas s)

/-- Modelled from the spec: DeclareAPI's parse of a signature string of
grammar `RETTYPE NAME '(' [TYPE (',' TYPE)*] ')'` (spec section 4.5);
`none` models `ParseError` on a grammar violation (unknown type name,
malformed parens, trailing tokens). -/
def parseSigChars (s : List Char) : Option Signature :=
  match splitFirst ' ' s with
  | none => none
  | some (retTok, rest) =>
    match parsePrim retTok with
    | none => none
    | some retty =>
      match splitFirst '(' rest with
      | none => none
      | some (nameTok, rest2) =>
        match splitFirst ')' rest2 with
        | none => none
        | some (inner, t2) =>
          if (trimChars nameTok).isEmpty then none
          else if !(trimChars nameTok).all isIdentChar then none
          else if !t2.isEmpty then none
          else
            match parseArgList inner with
            | none => none
            | some ps => some ⟨⟨trimChars nameTok⟩, retty, ps⟩

/-- Modelled from the spec: DeclareAPI entry point on strings
(spec section 4.5; the test calls it as
`external('float predict_float(float*, int32)')`). -/
def parseSig (s : String) : Option Signature :=
  parseSigChars s.data

/-- Textual form of one parameter in the grammar: the canonical primitive
name, with `*` appended when the mode is pointer. -/
def typeTok (p : Parameter) : List Char :=
  match p.mode with
  | .pointer => canonName p.ty ++ ['*']
  | .value => canonName p.ty

/-- Join token lists with commas. -/
def joinCommas : List (List Char) → List Char
  | [] => []
  | [x] => x
  | x :: y :: ys => x ++ ',' :: joinCommas (y :: ys)

/-- Serialize a Signature back to the grammar
`RETTYPE NAME '(' [TYPE (',' TYPE)*] ')'` (spec section 8, round-trip
property). -/
def serializeSig (sig : Signature) : List Char :=
  canonName sig.return_type ++
    (' ' :: (sig.name.data ++
      ('(' :: (joinCommas (sig.parameters.map typeTok) ++ [')']))))

/-- Modelled from the spec: registration failure modes of the
SignatureCatalog (spec sections 4.1 and 7). -/
inductive RegError where
  | conflictError | unknownNameError
deriving DecidableEq, Repr

/-- Modelled from the spec: the SignatureCatalog holds validated
signatures keyed by name (spec sections 2 and 4.1). -/
abbrev Catalog := List Signature

/-- Find the catalog entry with the given name, if any. -/
def lookupSig (cat : Catalog) (n : String) : Option Signature :=
  cat.find? fun s => s.name == n

/-- Modelled from the spec: `lookup(name)` returns the Signature or fails
with `UnknownNameError` (spec section 4.1). -/
def lookupCat (cat : Catalog) (n : String) : Except RegError Signature :=
  match lookupSig cat n with
  | some s => .ok s
  | none => .error .unknownNameError

/-- Modelled from the spec: `register(name, return_type, parameters)`
fails with `ConflictError` if `name` already exists with a different
signature, succeeds idempotently if identical, otherwise inserts
atomically (spec section 4.1). -/
def registerSig (cat : Catalog) (n : String) (rt : Prim) (ps : List Parameter) :
    Except RegError Catalog :=
  match lookupSig cat n with
  | some s =>
    if s.return_type = rt ∧ s.parameters = ps then .ok cat
    else .error .conflictError
  | none => .ok (cat ++ [⟨n, rt, ps⟩])

/-- Modelled from the spec: bulk registration processes each entry of an
external signature table independently; one entry's conflict does not
abort already-applied prior entries (spec section 4.1). -/
def registerAll (cat : Catalog) : List (String × Prim × List Parameter) → Catalog
  | [] => cat
  | (n, rt, ps) :: rest =>
    match registerSig cat n rt ps with
    | .ok cat2 => registerAll cat2 rest
    | .error _ => registerAll cat rest

/-- Modelled from the spec: the inferred type of a call-site argument
expression — a primitive scalar, a higher-level contiguous-buffer value,
or a raw pointer to a primitive (spec section 3, TypedCallSite). -/
inductive ArgType where
  | prim (p : Prim)
  | buffer (elem : Prim)
  | ptr (elem : Prim)
deriving DecidableEq, Repr

/-- Modelled from the spec: type-checking failure modes at a call site
(spec sections 4.2 and 7). -/
inductive TypeError where
  | unresolvedNameError | arityMismatchError | typeMismatchError
deriving DecidableEq, Repr

/-- Modelled from the spec: structural match of one argument type against
one parameter — a value parameter accepts exactly its primitive, a
pointer parameter accepts a raw pointer to its primitive or a buffer
value decaying to pointer-of(element type) (spec section 3). -/
def paramAccepts (param : Parameter) (a : ArgType) : Bool :=
  match param.mode with
  | .value => a == .prim param.ty
  | .pointer => a == .ptr param.ty || a == .buffer param.ty

/-- Pointwise structural match of an argument-type list against a
parameter list, failing on any arity mismatch. -/
def checkArgs : List Parameter → List ArgType → Bool
  | [], [] => true
  | p :: ps, a :: more => paramAccepts p a && checkArgs ps more
  | _, _ => false

/-- Modelled from the spec: a TypedCallSite is a call expression naming a
catalog entry together with its argument types (spec section 3). -/
structure CallSite where
  callee : String
  argTypes : List ArgType
deriving DecidableEq, Repr

/-- Modelled from the spec: TypeBridge's type-checking of a call site —
resolve the name in the catalog, check arity, check each argument
structurally, and yield the declared return type
(spec section 4.2). -/
def typecheckCall (cat : Catalog) (c : CallSite) : Except TypeError Prim :=
  match lookupSig cat c.callee with
  | none => .error .unresolvedNameError
  | some s =>
    if s.parameters.length ≠ c.argTypes.length then .error .arityMismatchError
    else if checkArgs s.parameters c.argTypes then .ok s.return_type
    else .error .typeMismatchError

/-- Modelled from the spec: one marshaled argument of the emitted foreign
call — passed by value at the declared width, passed as an already-raw
pointer, or passed as the address obtained by invoking the buffer
value's own pointer-accessor (spec section 4.3). -/
inductive MArg where
  | byValue (ty : Prim)
  | rawPtr (elem : Prim)
  | viaAccessor (elem : Prim)
deriving DecidableEq, Repr

/-- Modelled from the spec: the emitted foreign-call instruction — target
symbol literally equal to the declared name, marshaled arguments in
declared order, result typed as the declared return type
(spec section 4.3). -/
structure ForeignCall where
  symbol : String
  margs : List MArg
  result_type : Prim
deriving DecidableEq, Repr

/-- Modelled from the spec: marshal one argument for one parameter — a
value parameter passes the argument by value; a pointer parameter
passes a raw pointer through, and for a buffer value first calls the
value's own pointer-accessor to obtain the raw address
(spec section 4.3). -/
def marshalArg (param : Parameter) (a : ArgType) : Option MArg :=
  match param.mode, a with
  | .value, .prim t => if t = param.ty then some (.byValue param.ty) else none
  | .pointer, .ptr t => if t = param.ty then some (.rawPtr param.ty) else none
  | .pointer, .buffer t => if t = param.ty then some (.viaAccessor param.ty) else none
  | _, _ => none

/-- Marshal every argument in declared parameter order, failing on any
arity or type mismatch. -/
def marshalArgs : List Parameter → List ArgType → Option (List MArg)
  | [], [] => some []
  | p :: ps, a :: more =>
    match marshalArg p a, marshalArgs ps more with
    | some m, some ms => some (m :: ms)
    | _, _ => none
  | _, _ => none

/-- Modelled from the spec: CallLowering's lowering of a call site —
resolve the name, marshal the arguments, and emit the foreign call with
result type equal to the catalog entry's return type
(spec section 4.3). -/
def lowerCall (cat : Catalog) (c : CallSite) : Option ForeignCall :=
  match lookupSig cat c.callee with
  | none => none
  | some s =>
    match marshalArgs s.parameters c.argTypes with
    | none => none
    | some ms => some ⟨s.name, ms, s.return_type⟩

/-- The signature declared by the treelite test:
`float predict_float(float*, int32)`. -/
def predictSig : Signature :=
  ⟨"predict_float", .float32, [⟨.float32, .pointer⟩, ⟨.int32, .value⟩]⟩

/-- A one-entry catalog holding `predictSig`. -/
def predictCat : Catalog := [predictSig]

/-- The call site `predict_float(data, pred_margin)` of the test's UDF,
whose first argument is a float buffer and second an int32 scalar. -/
def predictCall : CallSite :=
  ⟨"predict_float", [.buffer .float32, .prim .int32]⟩

/-- Modelled from the spec: an ExternalModule is an opaque compiled-code
blob; for linking purposes it is characterized by the set of symbols it
defines (spec sections 3 and 4.4; the test supplies one through
`omnisci.user_defined_llvm_ir[device] = model_llvmir`). -/
structure ExternalModule where
  defined : List String
deriving DecidableEq, Repr

/-- Modelled from the spec: link-stage failure modes
(spec sections 4.4 and 7). -/
inductive LinkError where
  | unresolvedSymbolError | linkConflictError
deriving DecidableEq, Repr

/-- Modelled from the spec: the per-(user function, target) build state —
the external symbols recorded during lowering as referenced but not
locally defined, and the ExternalModules attached so far
(spec section 4.4). -/
structure Build where
  referenced : List String
  modules : List ExternalModule
deriving DecidableEq, Repr

/-- Modelled from the spec: declaring and lowering a user function
records its referenced external symbols; no ExternalModule is required
yet and no error is raised at this point (spec section 4.4, laziness). -/
def declareBuild (referenced : List String) : Build :=
  ⟨referenced, []⟩

/-- Modelled from the spec: attach an ExternalModule to a build, any time
before the Linked transition is attempted (spec section 4.4). -/
def attachModule (b : Build) (m : ExternalModule) : Build :=
  ⟨b.referenced, b.modules ++ [m]⟩

/-- A symbol is resolved when some attached module defines it. -/
def resolvedBy (mods : List ExternalModule) (sym : String) : Bool :=
  mods.any fun m => m.defined.contains sym

/-- Modelled from the spec: the finalized immutable artifact — the frozen
linked module with its symbols (spec section 3). -/
structure CompilationArtifact where
  symbols : List String
deriving DecidableEq, Repr

/-- Modelled from the spec: the Linked-to-Finalized transition — any
symbol recorded during lowering that is still undefined by every
attached ExternalModule fails the build with `UnresolvedSymbolError`;
otherwise the module is frozen into a CompilationArtifact
(spec section 4.4). -/
def finalizeBuild (b : Build) : Except LinkError CompilationArtifact :=
  if b.referenced.all (resolvedBy b.modules) then .ok ⟨b.referenced⟩
  else .error .unresolvedSymbolError

/-- One argument descriptor of the libdevice function table: a primitive
type name and an is-pointer flag, as consumed by
`rbc/externals/libdevice.py` (`x.ty`, `x.is_ptr`). -/
structure LibArg where
  ty : String
  is_ptr : Bool
deriving DecidableEq, Repr

/-- Embedded from `rbc/externals/libdevice.py`: the argument-type-string
construction
`argtys = tuple(map(lambda x: f"{x.ty}*" if x.is_ptr else f"{x.ty}", args))`. -/
def argtys (args : List LibArg) : List String :=
  args.map fun x => if x.is_ptr then x.ty ++ "*" else x.ty

/-- Modelled from the spec: the pair of host-compiler registries that
the import populates — `typing_registry` and `lowering_registry` of
`rbc/externals/libdevice.py`, each holding the names a rule was
installed for (spec sections 2 and 4.2 to 4.3). -/
structure Registries where
  typing : List String
  lowering : List String
deriving DecidableEq, Repr

/-- Modelled from the spec: `register_external` (imported by
`libdevice.py` from `rbc.externals`, not among the provided source
files) — one registration call installs a typing rule and a lowering
rule for the name into the two registries together
(spec sections 2 and 4.1 to 4.3). -/
def register_external (fname : String) (retty : String) (argTyStrs : List String)
    (r : Registries) : Registries :=
  ⟨fname :: r.typing, fname :: r.lowering⟩

/-- Embedded from `rbc/externals/libdevice.py`: the module-import loop
`for fname, (retty, args) in libdevicefuncs.functions.items(): ...
register_external(fname, retty, argtys, ...)`, one registration call per
table entry, starting from the module's two fresh registries. -/
def libdeviceImportFrom (r : Registries)
    (functions : List (String × String × List LibArg)) : Registries :=
  functions.foldl (fun acc e => register_external e.1 e.2.1 (argtys e.2.2) acc) r

/-- The import applied to the module's fresh registries. -/
def libdeviceImport (functions : List (String × String × List LibArg)) : Registries :=
  libdeviceImportFrom ⟨[], []⟩ functions

end RBC

namespace RBC

theorem lookupSig_name_eq {cat : Catalog} {n : String} {s : Signature}
    (h : lookupSig cat n = some s) : s.name = n := by
  have := List.find?_some h
  simpa using this

theorem lookupSig_append_of_some {cat : Catalog} {n : String} {s : Signature}
    (h : lookupSig cat n = some s) (l : List Signature) :
    lookupSig (cat ++ l) n = some s := by
  unfold lookupSig at h ⊢
  rw [List.find?_append, h]
  rfl

theorem lookupSig_append_single_of_none {cat : Catalog} {n : String}
    (h : lookupSig cat n = none) (x : Signature) (hx : x.name = n) :
    lookupSig (cat ++ [x]) n = some x := by
  unfold lookupSig at h ⊢
  rw [List.find?_append, h]
  simp [hx]

/-- Registration never removes or alters an existing entry. -/
theorem registerSig_preserves {cat cat2 : Catalog} {n m : String}
    {s : Signature} {rt : Prim} {ps : List Parameter}
    (h : lookupSig cat n = some s) (hr : registerSig cat m rt ps = .ok cat2) :
    lookupSig cat2 n = some s := by
  unfold registerSig at hr
  cases hm : lookupSig cat m with
  | some t =>
    rw [hm] at hr
    by_cases hc : t.return_type = rt ∧ t.parameters = ps
    · simp [hc] at hr
      subst hr
      exact h
    · simp [hc] at hr
  | none =>
    rw [hm] at hr
    simp at hr
    subst hr
    exact lookupSig_append_of_some h _

theorem registerAll_preserves {cat : Catalog} {n : String} {s : Signature}
    (entries : List (String × Prim × List Parameter))
    (h : lookupSig cat n = some s) :
    lookupSig (registerAll cat entries) n = some s := by
  induction entries generalizing cat with
  | nil => exact h
  | cons e rest ih =>
    obtain ⟨m, rt, ps⟩ := e
    unfold registerAll
    cases hr : registerSig cat m rt ps with
    | ok cat2 => exact ih (registerSig_preserves h hr)
    | error _ => exact ih h

/-- Every signature in a bulk-registered catalog is either an original
entry or a whole entry of the table — never a partially-applied one. -/
theorem registerAll_entries {cat : Catalog}
    (entries : List (String × Prim × List Parameter)) :
    ∀ t ∈ registerAll cat entries,
      t ∈ cat ∨ ∃ e ∈ entries, t = ⟨e.1, e.2.1, e.2.2⟩ := by
  induction entries generalizing cat with
  | nil => intro t ht; exact Or.inl ht
  | cons e rest ih =>
    obtain ⟨m, rt, ps⟩ := e
    intro t ht
    unfold registerAll at ht
    cases hr : registerSig cat m rt ps with
    | ok cat2 =>
      rw [hr] at ht
      rcases ih t ht with hin | ⟨e2, he2, heq⟩
      · unfold registerSig at hr
        cases hm : lookupSig cat m with
        | some u =>
          rw [hm] at hr
          by_cases hc : u.return_type = rt ∧ u.parameters = ps
          · simp [hc] at hr; subst hr; exact Or.inl hin
          · simp [hc] at hr
        | none =>
          rw [hm] at hr
          simp at hr
          subst hr
          rcases List.mem_append.mp hin with h1 | h1
          · exact Or.inl h1
          · simp at h1
            exact Or.inr ⟨(m, rt, ps), by simp, h1⟩
      · exact Or.inr ⟨e2, by simp [he2], heq⟩
    | error _ =>
      rw [hr] at ht
      rcases ih t ht with hin | ⟨e2, he2, heq⟩
      · exact Or.inl hin
      · exact Or.inr ⟨e2, by simp [he2], heq⟩

theorem marshalArg_isSome_iff (p : Parameter) (a : ArgType) :
    (marshalArg p a).isSome = paramAccepts p a := by
  obtain ⟨ty, mode⟩ := p
  cases mode with
  | value =>
    cases a with
    | prim t => by_cases h : t = ty <;> simp [marshalArg, paramAccepts, h]
    | buffer t => simp [marshalArg, paramAccepts]
    | ptr t => simp [marshalArg, paramAccepts]
  | pointer =>
    cases a with
    | prim t => simp [marshalArg, paramAccepts]
    | buffer t => by_cases h : t = ty <;> simp [marshalArg, paramAccepts, h]
    | ptr t => by_cases h : t = ty <;> simp [marshalArg, paramAccepts, h]

theorem marshalArgs_isSome_iff (ps : List Parameter) (args : List ArgType) :
    (marshalArgs ps args).isSome = checkArgs ps args := by
  induction ps generalizing args with
  | nil => cases args <;> simp [marshalArgs, checkArgs]
  | cons p rest ih =>
    cases args with
    | nil => simp [marshalArgs, checkArgs]
    | cons a more =>
      simp only [marshalArgs, checkArgs]
      rw [← marshalArg_isSome_iff, ← ih more]
      cases marshalArg p a <;> cases marshalArgs rest more <;> simp

theorem checkArgs_length {ps : List Parameter} {args : List ArgType}
    (h : checkArgs ps args = true) : ps.length = args.length := by
  induction ps generalizing args with
  | nil =>
    cases args with
    | nil => rfl
    | cons _ _ => simp [checkArgs] at h
  | cons p rest ih =>
    cases args with
    | nil => simp [checkArgs] at h
    | cons a more =>
      simp only [checkArgs, Bool.and_eq_true] at h
      simpa using ih h.2

theorem marshalArgs_get {ps : List Parameter} {args : List ArgType}
    {ms : List MArg} (h : marshalArgs ps args = some ms) :
    ms.length = ps.length ∧
    ∀ i (hi : i < ps.length) (hj : i < args.length) (hk : i < ms.length),
      marshalArg (ps.get ⟨i, hi⟩) (args.get ⟨i, hj⟩) = some (ms.get ⟨i, hk⟩) := by
  induction ps generalizing args ms with
  | nil =>
    cases args with
    | nil =>
      simp [marshalArgs] at h
      subst h
      exact ⟨rfl, fun i hi => absurd hi (Nat.not_lt_zero i)⟩
    | cons _ _ => simp [marshalArgs] at h
  | cons p rest ih =>
    cases args with
    | nil => simp [marshalArgs] at h
    | cons a more =>
      simp only [marshalArgs] at h
      cases hm : marshalArg p a with
      | none => rw [hm] at h; simp at h
      | some m =>
        rw [hm] at h
        cases hms : marshalArgs rest more with
        | none => rw [hms] at h; simp at h
        | some ms2 =>
          rw [hms] at h
          simp at h
          subst h
          obtain ⟨hlen, hget⟩ := ih hms
          refine ⟨by simp [hlen], ?_⟩
          intro i hi hj hk
          cases i with
          | zero => simpa using hm
          | succ i2 =>
            simp only [List.get_cons_succ]
            exact hget i2 (Nat.lt_of_succ_lt_succ hi) (Nat.lt_of_succ_lt_succ hj)
              (Nat.lt_of_succ_lt_succ hk)

theorem libdeviceImportFrom_pres (functions : List (String × String × List LibArg)) :
    ∀ r : Registries, r.typing = r.lowering →
      (libdeviceImportFrom r functions).typing
          = (libdeviceImportFrom r functions).lowering ∧
      (libdeviceImportFrom r functions).typing.length
          = r.typing.length + functions.length := by
  induction functions with
  | nil =>
    intro r h
    exact ⟨h, rfl⟩
  | cons e rest ih =>
    intro r h
    have step := ih (register_external e.1 e.2.1 (argtys e.2.2) r)
      (by simp [register_external, h])
    refine ⟨?_, ?_⟩
    · simpa [libdeviceImportFrom, List.foldl_cons] using step.1
    · have h2 := step.2
      simp only [libdeviceImportFrom, List.foldl_cons] at h2 ⊢
      simp only [register_external, List.length_cons] at h2 ⊢
      omega

theorem splitFirst_append_cons {c : Char} {r : List Char} :
    ∀ {l : List Char}, (∀ x ∈ l, x ≠ c) → splitFirst c (l ++ c :: r) = some (l, r) := by
  intro l
  induction l with
  | nil =>
    intro _
    simp [splitFirst]
  | cons a t ih =>
    intro h
    have ha : a ≠ c := h a (by simp)
    have ht := ih fun x hx => h x (List.mem_cons_of_mem a hx)
    simp only [List.cons_append, splitFirst, List.append_eq, ht]
    rw [if_neg ha]

theorem parsePrim_canonName (p : Prim) : parsePrim (canonName p) = some p := by
  cases p <;> rfl

theorem canonName_no_special (p : Prim) :
    ∀ c ∈ canonName p, c ≠ ' ' ∧ c ≠ '(' ∧ c ≠ ')' ∧ c ≠ ',' := by
  cases p <;> decide

theorem typeTok_chars (p : Parameter) :
    ∀ c ∈ typeTok p, c ≠ ' ' ∧ c ≠ '(' ∧ c ≠ ')' ∧ c ≠ ',' := by
  obtain ⟨ty, mode⟩ := p
  cases mode <;> cases ty <;> decide

theorem typeTok_ne_nil (p : Parameter) : typeTok p ≠ [] := by
  obtain ⟨ty, mode⟩ := p
  cases mode <;> cases ty <;> decide

theorem parseTypeTok_typeTok (p : Parameter) : parseTypeTok (typeTok p) = some p := by
  obtain ⟨ty, mode⟩ := p
  cases mode <;> cases ty <;> rfl

theorem isIdentChar_not_special {c : Char} (h : isIdentChar c = true) :
    c ≠ ' ' ∧ c ≠ '(' ∧ c ≠ ')' ∧ c ≠ ',' := by
  refine ⟨?_, ?_, ?_, ?_⟩ <;> rintro rfl <;> exact absurd h (by decide)

theorem dropWhile_spaces_eq {l : List Char} (h : ∀ c ∈ l, c ≠ ' ') :
    (l.dropWhile fun c => c = ' ') = l := by
  cases l with
  | nil => rfl
  | cons a t =>
    have ha : a ≠ ' ' := h a (by simp)
    simp [List.dropWhile_cons, ha]

theorem trimChars_eq_self {l : List Char} (h : ∀ c ∈ l, c ≠ ' ') :
    trimChars l = l := by
  unfold trimChars
  rw [dropWhile_spaces_eq h]
  rw [dropWhile_spaces_eq fun c hc => h c (List.mem_reverse.mp hc)]
  exact List.reverse_reverse l

theorem mem_dropWhile_of_ne {l : List Char} {c : Char} (hc : c ∈ l) (hcs : c ≠ ' ') :
    c ∈ l.dropWhile fun x => x = ' ' := by
  induction l with
  | nil => simp at hc
  | cons a t ih =>
    by_cases ha : a = ' '
    · subst ha
      rw [List.dropWhile_cons_of_pos (by simp)]
      rcases List.mem_cons.mp hc with h1 | h1
      · exact absurd h1 hcs
      · exact ih h1
    · rw [List.dropWhile_cons_of_neg (by simpa using ha)]
      exact hc

theorem trimChars_ne_nil {l : List Char} {c : Char} (hc : c ∈ l) (hcs : c ≠ ' ') :
    trimChars l ≠ [] := by
  unfold trimChars
  intro h
  rw [List.reverse_eq_nil_iff] at h
  have h1 : c ∈ (l.dropWhile fun x => x = ' ').reverse :=
    List.mem_reverse.mpr (mem_dropWhile_of_ne hc hcs)
  have h2 := mem_dropWhile_of_ne h1 hcs
  rw [h] at h2
  simp at h2

theorem splitCommas_no_comma {x : List Char} (h : ∀ c ∈ x, c ≠ ',') :
    splitCommas x = [x] := by
  induction x with
  | nil => rfl
  | cons a t ih =>
    have ha : a ≠ ',' := h a (by simp)
    have ht := ih fun c hc => h c (List.mem_cons_of_mem a hc)
    simp only [splitCommas, ht]
    rw [if_neg ha]

theorem splitCommas_append_comma {x rest : List Char} (h : ∀ c ∈ x, c ≠ ',') :
    splitCommas (x ++ ',' :: rest) = x :: splitCommas rest := by
  induction x with
  | nil => simp [splitCommas]
  | cons a t ih =>
    have ha : a ≠ ',' := h a (by simp)
    have ht := ih fun c hc => h c (List.mem_cons_of_mem a hc)
    simp only [List.cons_append, splitCommas, List.append_eq, ht]
    rw [if_neg ha]

theorem splitCommas_joinCommas :
    ∀ {xs : List (List Char)}, xs ≠ [] → (∀ x ∈ xs, ∀ c ∈ x, c ≠ ',') →
      splitCommas (joinCommas xs) = xs
  | [], h, _ => absurd rfl h
  | [x], _, h => by
    simpa [joinCommas] using splitCommas_no_comma (h x (by simp))
  | x :: y :: ys, _, h => by
    rw [joinCommas, splitCommas_append_comma (h x (by simp)),
      splitCommas_joinCommas (by simp) fun z hz => h z (List.mem_cons_of_mem x hz)]

theorem parseTypeList_map (ps : List Parameter) :
    parseTypeList (ps.map typeTok) = some ps := by
  induction ps with
  | nil => rfl
  | cons p rest ih =>
    have htrim : trimChars (typeTok p) = typeTok p :=
      trimChars_eq_self fun c hc => (typeTok_chars p c hc).1
    simp [parseTypeList, htrim, parseTypeTok_typeTok, ih]

theorem mem_joinCommas_of_head {x : List Char} {xs : List (List Char)} {c : Char}
    (hc : c ∈ x) : c ∈ joinCommas (x :: xs) := by
  cases xs with
  | nil => simpa [joinCommas] using hc
  | cons y ys =>
    rw [joinCommas]
    exact List.mem_append_left _ hc

theorem mem_joinCommas :
    ∀ {xs : List (List Char)} {c : Char}, c ∈ joinCommas xs →
      c = ',' ∨ ∃ x ∈ xs, c ∈ x
  | [], _, h => by simp [joinCommas] at h
  | [x], c, h => by
    rw [joinCommas] at h
    exact Or.inr ⟨x, by simp, h⟩
  | x :: y :: ys, c, h => by
    rw [joinCommas] at h
    rcases List.mem_append.mp h with h1 | h1
    · exact Or.inr ⟨x, by simp, h1⟩
    · rcases List.mem_cons.mp h1 with h2 | h2
      · exact Or.inl h2
      · rcases mem_joinCommas h2 with h3 | ⟨z, hz, hcz⟩
        · exact Or.inl h3
        · exact Or.inr ⟨z, List.mem_cons_of_mem x hz, hcz⟩

theorem parseArgList_joinCommas (ps : List Parameter) :
    parseArgList (joinCommas (ps.map typeTok)) = some ps := by
  cases ps with
  | nil => rfl
  | cons p rest =>
    unfold parseArgList
    obtain ⟨c, hc⟩ := List.exists_mem_of_ne_nil _ (typeTok_ne_nil p)
    have hcm : c ∈ joinCommas ((p :: rest).map typeTok) := by
      rw [List.map_cons]
      exact mem_joinCommas_of_head hc
    have hne := trimChars_ne_nil hcm (typeTok_chars p c hc).1
    rw [if_neg hne]
    rw [splitCommas_joinCommas (by simp) ?hcomma]
    case hcomma =>
      intro x hx d hd
      obtain ⟨q, hq, rfl⟩ := List.mem_map.mp hx
      exact (typeTok_chars q d hd).2.2.2
    exact parseTypeList_map _

theorem parseSigChars_shape {s : List Char} {sig : Signature}
    (h : parseSigChars s = some sig) :
    sig.name.data ≠ [] ∧ sig.name.data.all isIdentChar = true := by
  unfold parseSigChars at h
  split at h
  · simp at h
  next retTok rest hsp =>
    split at h
    · simp at h
    next retty hpr =>
      split at h
      · simp at h
      next nameTok rest2 hnp =>
        split at h
        · simp at h
        next inner t2 hcp =>
          by_cases hemp : (trimChars nameTok).isEmpty
          · rw [if_pos hemp] at h
            simp at h
          · rw [if_neg hemp] at h
            by_cases hall : !(trimChars nameTok).all isIdentChar
            · rw [if_pos hall] at h
              simp at h
            · rw [if_neg hall] at h
              by_cases ht2 : !t2.isEmpty
              · rw [if_pos ht2] at h
                simp at h
              · rw [if_neg ht2] at h
                split at h
                · simp at h
                next ps hargs =>
                  simp only [Option.some.injEq] at h
                  subst h
                  constructor
                  · simpa [List.isEmpty_iff] using hemp
                  · simpa using hall

theorem parse_serialize (sig : Signature)
    (hne : sig.name.data ≠ [])
    (hid : sig.name.data.all isIdentChar = true) :
    parseSigChars (serializeSig sig) = some sig := by
  have hidc : ∀ c ∈ sig.name.data, isIdentChar c = true :=
    List.all_eq_true.mp hid
  have h1 : splitFirst ' ' (serializeSig sig) =
      some (canonName sig.return_type,
        sig.name.data ++
          ('(' :: (joinCommas (sig.parameters.map typeTok) ++ [')']))) := by
    unfold serializeSig
    exact splitFirst_append_cons fun x hx => (canonName_no_special _ x hx).1
  have h2 := parsePrim_canonName sig.return_type
  have h3 : splitFirst '('
      (sig.name.data ++
        ('(' :: (joinCommas (sig.parameters.map typeTok) ++ [')']))) =
      some (sig.name.data, joinCommas (sig.parameters.map typeTok) ++ [')']) :=
    splitFirst_append_cons fun x hx => (isIdentChar_not_special (hidc x hx)).2.1
  have h4 : splitFirst ')' (joinCommas (sig.parameters.map typeTok) ++ [')']) =
      some (joinCommas (sig.parameters.map typeTok), []) :=
    splitFirst_append_cons fun x hx => by
      rcases mem_joinCommas hx with hcm | ⟨z, hz, hcz⟩
      · subst hcm; decide
      · obtain ⟨q, hq, rfl⟩ := List.mem_map.mp hz
        exact (typeTok_chars q x hcz).2.2.1
  have h5 : trimChars sig.name.data = sig.name.data :=
    trimChars_eq_self fun c hc => (isIdentChar_not_special (hidc c hc)).1
  have h6 := parseArgList_joinCommas sig.parameters
  have hioe : sig.name.data.isEmpty = false := by
    cases hcase : sig.name.data with
    | nil => exact absurd hcase hne
    | cons _ _ => rfl
  simp only [parseSigChars, h1, h2, h3, h4, h5, h6, hioe, hid, List.isEmpty_nil,
    Bool.not_true, Bool.not_false, Bool.false_eq_true, if_false, if_true]

end RBC

/-- C1: parsing the signature string `float predict_float(float*, int32)`
succeeds and yields name `predict_float`, return type float32 and
parameters `[(float32, pointer), (int32, value)]`; in general a TYPE
token with a trailing `*` parses to pointer mode and one without it
parses to value mode. -/
theorem C1_declare_parse_predict_float :
    RBC.parseSig "float predict_float(float*, int32)" =
      some ⟨"predict_float", .float32, [⟨.float32, .pointer⟩, ⟨.int32, .value⟩]⟩ ∧
    ∀ p : RBC.Prim,
      RBC.parseTypeTok (RBC.canonName p ++ ['*']) = some ⟨p, .pointer⟩ ∧
      RBC.parseTypeTok (RBC.canonName p) = some ⟨p, .value⟩ := by
  refine ⟨by decide, fun p => ⟨?_, ?_⟩⟩ <;> cases p <;> rfl

/-- C3: registering a name already present in the catalog with a
different return type or different parameter list fails with
`ConflictError`, and the previously stored entry is still returned by
lookup afterwards (the catalog value is unchanged, the call having
produced no new catalog). -/
theorem C3_register_conflict (cat : RBC.Catalog) (n : String) (s : RBC.Signature)
    (rt : RBC.Prim) (ps : List RBC.Parameter)
    (h : RBC.lookupSig cat n = some s)
    (hdiff : s.return_type ≠ rt ∨ s.parameters ≠ ps) :
    RBC.registerSig cat n rt ps = .error .conflictError ∧
    RBC.lookupCat cat n = .ok s := by
  constructor
  · unfold RBC.registerSig
    rw [h]
    have : ¬(s.return_type = rt ∧ s.parameters = ps) := by
      rcases hdiff with hd | hd <;> intro hc <;> exact hd (by simp [hc.1, hc.2])
    simp [this]
  · unfold RBC.lookupCat
    rw [h]

/-- C3 witness: a one-entry catalog holding `f : int32()` rejects
re-registration of `f` with return type `float32`. -/
theorem C3_register_conflict_witness :
    RBC.registerSig [⟨"f", .int32, []⟩] "f" .float32 [] = .error .conflictError ∧
    RBC.lookupCat [⟨"f", .int32, []⟩] "f" = .ok ⟨"f", .int32, []⟩ :=
  C3_register_conflict [⟨"f", .int32, []⟩] "f" ⟨"f", .int32, []⟩ .float32 []
    (by decide) (Or.inl (by decide))

/-- C4: registering the identical `(name, return_type, parameters)`
triple a second time is idempotent — the second call succeeds with the
very same catalog (hence unchanged size) and lookup returns the same
Signature as after the first call. -/
theorem C4_register_idempotent (cat cat2 : RBC.Catalog) (n : String)
    (rt : RBC.Prim) (ps : List RBC.Parameter)
    (h : RBC.registerSig cat n rt ps = .ok cat2) :
    RBC.registerSig cat2 n rt ps = .ok cat2 ∧
    RBC.lookupSig cat2 n = some ⟨n, rt, ps⟩ := by
  have hlk : RBC.lookupSig cat2 n = some ⟨n, rt, ps⟩ := by
    unfold RBC.registerSig at h
    cases hm : RBC.lookupSig cat n with
    | some s =>
      rw [hm] at h
      by_cases hc : s.return_type = rt ∧ s.parameters = ps
      · simp [hc] at h
        subst h
        have hn := RBC.lookupSig_name_eq hm
        have : s = ⟨n, rt, ps⟩ := by
          cases s
          simp_all
        rw [← this]
        exact hm
      · simp [hc] at h
    | none =>
      rw [hm] at h
      simp at h
      subst h
      exact RBC.lookupSig_append_single_of_none hm _ rfl
  refine ⟨?_, hlk⟩
  unfold RBC.registerSig
  rw [hlk]
  simp

/-- C4 witness: registering `g : float64(int8)` into the empty catalog
and then registering it again leaves the catalog and the lookup result
unchanged. -/
theorem C4_register_idempotent_witness :
    RBC.registerSig [⟨"g", .float64, [⟨.int8, .value⟩]⟩] "g" .float64 [⟨.int8, .value⟩]
      = .ok [⟨"g", .float64, [⟨.int8, .value⟩]⟩] ∧
    RBC.lookupSig [⟨"g", .float64, [⟨.int8, .value⟩]⟩] "g"
      = some ⟨"g", .float64, [⟨.int8, .value⟩]⟩ :=
  C4_register_idempotent [] [⟨"g", .float64, [⟨.int8, .value⟩]⟩] "g" .float64
    [⟨.int8, .value⟩] (by rfl)

/-- C6: bulk registration processes entries independently — every entry
registered before a conflicting one remains registered and usable
(lookup still returns it after the whole bulk run), and the resulting
catalog never contains a partially-applied signature: each of its
entries is either an original entry or a whole entry of the table. -/
theorem C6_bulk_registration_independent (cat : RBC.Catalog) (n : String)
    (s : RBC.Signature) (entries : List (String × RBC.Prim × List RBC.Parameter))
    (h : RBC.lookupSig cat n = some s) :
    RBC.lookupSig (RBC.registerAll cat entries) n = some s ∧
    ∀ t ∈ RBC.registerAll cat entries,
      t ∈ cat ∨ ∃ e ∈ entries, t = ⟨e.1, e.2.1, e.2.2⟩ :=
  ⟨RBC.registerAll_preserves entries h, RBC.registerAll_entries entries⟩

/-- C6 witness: after bulk-registering a table whose second entry
conflicts with `f`, the prior entry `f : int32()` is still registered,
and every catalog entry comes whole from the original catalog or the
table. -/
theorem C6_bulk_registration_independent_witness :
    RBC.lookupSig (RBC.registerAll [⟨"f", .int32, []⟩]
      [("h2", .void, []), ("f", .float32, [])]) "f" = some ⟨"f", .int32, []⟩ ∧
    ∀ t ∈ RBC.registerAll [⟨"f", .int32, []⟩]
      [("h2", .void, []), ("f", .float32, [])],
      t ∈ [(⟨"f", .int32, []⟩ : RBC.Signature)] ∨
      ∃ e ∈ [(("h2", .void, []) : String × RBC.Prim × List RBC.Parameter),
             ("f", .float32, [])], t = ⟨e.1, e.2.1, e.2.2⟩ :=
  C6_bulk_registration_independent [⟨"f", .int32, []⟩] "f" ⟨"f", .int32, []⟩
    [("h2", .void, []), ("f", .float32, [])] (by decide)

/-- C2: for every TypedCallSite, lowering succeeds iff type-checking
succeeded for the same call, and on success the lowered call's result
type equals the return type type-checking inferred — no reinterpretation
between the two registries. -/
theorem C2_lowering_matches_typecheck (cat : RBC.Catalog) (c : RBC.CallSite) :
    ((∃ t, RBC.typecheckCall cat c = .ok t) ↔
      ∃ fc, RBC.lowerCall cat c = some fc) ∧
    ∀ t fc, RBC.typecheckCall cat c = .ok t → RBC.lowerCall cat c = some fc →
      fc.result_type = t := by
  cases hm : RBC.lookupSig cat c.callee with
  | none =>
    refine ⟨by simp [RBC.typecheckCall, RBC.lowerCall, hm], ?_⟩
    intro t fc ht
    simp [RBC.typecheckCall, hm] at ht
  | some s =>
    have hiff := RBC.marshalArgs_isSome_iff s.parameters c.argTypes
    cases hc : RBC.checkArgs s.parameters c.argTypes with
    | true =>
      have hlen := RBC.checkArgs_length hc
      rw [hc] at hiff
      obtain ⟨ms, hms⟩ := Option.isSome_iff_exists.mp hiff
      simp [RBC.typecheckCall, RBC.lowerCall, hm, hms, hlen, hc]
    | false =>
      rw [hc] at hiff
      have hnone : RBC.marshalArgs s.parameters c.argTypes = none := by
        cases h2 : RBC.marshalArgs s.parameters c.argTypes with
        | none => rfl
        | some _ => rw [h2] at hiff; simp at hiff
      by_cases hlen : s.parameters.length = c.argTypes.length <;>
        simp [RBC.typecheckCall, RBC.lowerCall, hm, hnone, hlen, hc]

/-- C2 witness: concrete scenario 1 of the spec — with `add_i32`
registered as `int32(int32, int32)`, a call `add_i32(x, y)` with int32
scalars type-checks and lowers, with matching result type int32. -/
theorem C2_lowering_matches_typecheck_witness :
    ((∃ t, RBC.typecheckCall [⟨"add_i32", .int32, [⟨.int32, .value⟩, ⟨.int32, .value⟩]⟩]
        ⟨"add_i32", [.prim .int32, .prim .int32]⟩ = .ok t) ↔
      ∃ fc, RBC.lowerCall [⟨"add_i32", .int32, [⟨.int32, .value⟩, ⟨.int32, .value⟩]⟩]
        ⟨"add_i32", [.prim .int32, .prim .int32]⟩ = some fc) ∧
    ∀ t fc, RBC.typecheckCall [⟨"add_i32", .int32, [⟨.int32, .value⟩, ⟨.int32, .value⟩]⟩]
        ⟨"add_i32", [.prim .int32, .prim .int32]⟩ = .ok t →
      RBC.lowerCall [⟨"add_i32", .int32, [⟨.int32, .value⟩, ⟨.int32, .value⟩]⟩]
        ⟨"add_i32", [.prim .int32, .prim .int32]⟩ = some fc →
      fc.result_type = t :=
  C2_lowering_matches_typecheck
    [⟨"add_i32", .int32, [⟨.int32, .value⟩, ⟨.int32, .value⟩]⟩]
    ⟨"add_i32", [.prim .int32, .prim .int32]⟩

/-- C7: when a pointer-mode parameter receives a buffer-like argument,
a successful lowering marshals that argument as the address obtained by
invoking the value's own pointer-accessor — never as the buffer value
itself passed as if it were already a raw address. -/
theorem C7_buffer_arg_uses_accessor (cat : RBC.Catalog) (c : RBC.CallSite)
    (s : RBC.Signature) (fc : RBC.ForeignCall) (i : Nat) (t : RBC.Prim)
    (hs : RBC.lookupSig cat c.callee = some s)
    (hl : RBC.lowerCall cat c = some fc)
    (hi : i < s.parameters.length)
    (hj : i < c.argTypes.length)
    (hmode : (s.parameters.get ⟨i, hi⟩).mode = .pointer)
    (harg : c.argTypes.get ⟨i, hj⟩ = .buffer t) :
    ∃ hk : i < fc.margs.length,
      fc.margs.get ⟨i, hk⟩ = .viaAccessor (s.parameters.get ⟨i, hi⟩).ty := by
  simp only [RBC.lowerCall, hs] at hl
  cases hms : RBC.marshalArgs s.parameters c.argTypes with
  | none => rw [hms] at hl; simp at hl
  | some ms =>
    rw [hms] at hl
    simp at hl
    obtain ⟨hlen, hget⟩ := RBC.marshalArgs_get hms
    have hk : i < fc.margs.length := by
      rw [← hl]
      simpa [hlen] using hi
    refine ⟨hk, ?_⟩
    have hmi := hget i hi hj (by rw [← hl] at hk; simpa using hk)
    rw [harg] at hmi
    have hred : RBC.marshalArg (s.parameters.get ⟨i, hi⟩) (RBC.ArgType.buffer t)
        = if t = (s.parameters.get ⟨i, hi⟩).ty
          then some (RBC.MArg.viaAccessor (s.parameters.get ⟨i, hi⟩).ty)
          else none := by
      unfold RBC.marshalArg
      rw [hmode]
    rw [hred] at hmi
    by_cases he : t = (s.parameters.get ⟨i, hi⟩).ty
    · rw [if_pos he] at hmi
      subst hl
      simpa using hmi.symm
    · rw [if_neg he] at hmi
      simp at hmi

/-- C7 witness: lowering the test's `predict_float(data, pred_margin)`
call, whose first argument is a float buffer bound to a pointer-mode
parameter, marshals that argument via the buffer's pointer-accessor. -/
theorem C7_buffer_arg_uses_accessor_witness :
    ∃ hk : 0 < ([.viaAccessor .float32, .byValue .int32] : List RBC.MArg).length,
      ([.viaAccessor .float32, .byValue .int32] : List RBC.MArg).get ⟨0, hk⟩ =
        .viaAccessor (RBC.predictSig.parameters.get ⟨0, by decide⟩).ty :=
  C7_buffer_arg_uses_accessor RBC.predictCat RBC.predictCall RBC.predictSig
    ⟨"predict_float", [.viaAccessor .float32, .byValue .int32], .float32⟩ 0 .float32
    (by rfl) (by rfl) (by decide) (by decide) (by decide) (by rfl)

/-- C5: finalize fails with `UnresolvedSymbolError` exactly when some
external symbol recorded during lowering has no definition from any
attached ExternalModule; and attaching a covering ExternalModule after
declaration (lazily, before the Linked transition) makes finalize
succeed, declaration itself never raising the error eagerly. -/
theorem C5_finalize_unresolved_iff (b : RBC.Build) :
    (RBC.finalizeBuild b = .error .unresolvedSymbolError ↔
      ∃ sym ∈ b.referenced, RBC.resolvedBy b.modules sym = false) ∧
    ∀ (refs : List String) (m : RBC.ExternalModule),
      (∀ sym ∈ refs, m.defined.contains sym = true) →
      RBC.finalizeBuild (RBC.attachModule (RBC.declareBuild refs) m) = .ok ⟨refs⟩ := by
  constructor
  · unfold RBC.finalizeBuild
    cases hall : b.referenced.all (RBC.resolvedBy b.modules) with
    | true =>
      rw [List.all_eq_true] at hall
      simp only [if_true]
      constructor
      · intro hcontr
        simp at hcontr
      · rintro ⟨sym, hmem, hfalse⟩
        rw [hall sym hmem] at hfalse
        simp at hfalse
    | false =>
      simp only [Bool.false_eq_true, if_false]
      constructor
      · intro _
        have : ¬∀ sym ∈ b.referenced, RBC.resolvedBy b.modules sym = true := by
          intro hcontr
          rw [← List.all_eq_true] at hcontr
          rw [hcontr] at hall
          simp at hall
        push_neg at this
        obtain ⟨sym, hmem, hne⟩ := this
        exact ⟨sym, hmem, by simpa using hne⟩
      · intro _
        trivial
  · intro refs m hcov
    unfold RBC.finalizeBuild RBC.attachModule RBC.declareBuild
    have hall : refs.all (RBC.resolvedBy ([] ++ [m])) = true := by
      rw [List.all_eq_true]
      intro sym hsym
      simp only [List.nil_append, RBC.resolvedBy, List.any_cons, List.any_nil,
        Bool.or_false]
      exact hcov sym hsym
    simp [hall]
    intro x hx
    simpa only [RBC.resolvedBy, List.any_cons, List.any_nil, Bool.or_false]
      using hcov x hx

/-- C5 witness: concrete scenario 3 of the spec — declare a build
referencing `predict_float`, attach an ExternalModule defining
`predict_float`, finalize succeeds with an artifact and no unresolved
symbol. -/
theorem C5_finalize_unresolved_iff_witness :
    RBC.finalizeBuild (RBC.attachModule (RBC.declareBuild ["predict_float"])
      ⟨["predict_float"]⟩) = .ok ⟨["predict_float"]⟩ :=
  (C5_finalize_unresolved_iff (RBC.declareBuild ["predict_float"])).2
    ["predict_float"] ⟨["predict_float"]⟩ (by decide)

/-- C9: the libdevice module import performs exactly one registration
call per table entry, installing the name into the typing registry and
the lowering registry together — after import the two registries hold
the same names, so a name is in both or in neither. -/
theorem C9_registries_agree (functions : List (String × String × List RBC.LibArg)) :
    (RBC.libdeviceImport functions).typing = (RBC.libdeviceImport functions).lowering ∧
    (RBC.libdeviceImport functions).typing.length = functions.length ∧
    ∀ n, n ∈ (RBC.libdeviceImport functions).typing ↔
      n ∈ (RBC.libdeviceImport functions).lowering := by
  have h := RBC.libdeviceImportFrom_pres functions ⟨[], []⟩ rfl
  exact ⟨h.1, by simpa [RBC.libdeviceImport] using h.2, fun n => by
    simp only [RBC.libdeviceImport]
    rw [h.1]⟩

/-- C10: each argument type string handed to registration is the
descriptor's primitive type name with one `*` appended when its
is-pointer flag is set, the bare name otherwise, in the original
parameter order. -/
theorem C10_argtys_entrywise (args : List RBC.LibArg) :
    (RBC.argtys args).length = args.length ∧
    ∀ i, ∀ h : i < args.length, ∀ h2 : i < (RBC.argtys args).length,
      (RBC.argtys args)[i] =
        if args[i].is_ptr then args[i].ty ++ "*" else args[i].ty := by
  refine ⟨by simp [RBC.argtys], ?_⟩
  intro i h h2
  simp [RBC.argtys]

/-- C10 witness: on the two-descriptor table `[(float, pointer flag set),
(int, flag clear)]` the first argument type string is `float*`. -/
theorem C10_argtys_entrywise_witness :
    (RBC.argtys [⟨"float", true⟩, ⟨"int", false⟩])[0] =
      if ([(⟨"float", true⟩ : RBC.LibArg), ⟨"int", false⟩])[0].is_ptr
      then ([(⟨"float", true⟩ : RBC.LibArg), ⟨"int", false⟩])[0].ty ++ "*"
      else ([(⟨"float", true⟩ : RBC.LibArg), ⟨"int", false⟩])[0].ty :=
  (C10_argtys_entrywise [⟨"float", true⟩, ⟨"int", false⟩]).2 0 (by decide) (by decide)

/-- C8: for every signature string the parse accepts, the parse
round-trips — serializing the parsed Signature back to the grammar
`RETTYPE NAME '(' [TYPE (',' TYPE)*] ')'` and parsing that serialization
again yields a Signature identical to the first parse. -/
theorem C8_parse_roundtrip (s : String) (sig : RBC.Signature)
    (h : RBC.parseSig s = some sig) :
    RBC.parseSig ⟨RBC.serializeSig sig⟩ = some sig := by
  unfold RBC.parseSig at h ⊢
  obtain ⟨hne, hid⟩ := RBC.parseSigChars_shape h
  exact RBC.parse_serialize sig hne hid

/-- C8 witness: the accepted string `float predict_float(float*, int32)`
parses, and parsing the serialization of its parse yields the same
Signature. -/
theorem C8_parse_roundtrip_witness :
    RBC.parseSig ⟨RBC.serializeSig ⟨"predict_float", .float32,
      [⟨.float32, .pointer⟩, ⟨.int32, .value⟩]⟩⟩ =
      some ⟨"predict_float", .float32, [⟨.float32, .pointer⟩, ⟨.int32, .value⟩]⟩ :=
  C8_parse_roundtrip "float predict_float(float*, int32)"
    ⟨"predict_float", .float32, [⟨.float32, .pointer⟩, ⟨.int32, .value⟩]⟩
    (by decide)
